import Mathlib

/-!
Shallow embedding of the file-transfer server and client
(src/server.py, src/client.py).

Bytes are modelled as `List Nat`.  Two layers are embedded:

* a message layer: the wire carries a list of `Msg` items, where framed JSON
  control messages are constructors and the unframed chunk payload bytes are
  the `Msg.raw` constructor (the server sends them with a bare
  `client_socket.send(chunk_data)` right after the chunk header frame);
* a byte layer for the framing primitive `receive_message`, where the incoming
  TCP data is a schedule of delivery segments (`Segs`), modelling that a
  `recv(k)` call may return fewer than `k` bytes.

Filesystems (the served directory and the client download directory) are
association lists from filename to byte content.
-/

namespace FileTransfer

/-- The fixed chunk size `self.chunk_size = 1024 * 1024` (server.py line 19). -/
def chunk_size : Nat := 1048576

/-- server.py line 161: `num_chunks = (file_size + self.chunk_size - 1) // self.chunk_size`.
(Kept irreducible so that goals do not attempt to evaluate the division on
open terms; proofs go through `num_chunks.eq_def`.) -/
@[irreducible] def num_chunks (file_size : Nat) : Nat := (file_size + chunk_size - 1) / chunk_size

/-- Ceiling division, written the way the spec words it:
`num_chunks = ceil(file_size / chunk_size)`.  This definition follows the
spec text and is compared against the implementation (`num_chunks`). -/
def ceilDivSpec (a b : Nat) : Nat := if a % b = 0 then a / b else a / b + 1

/-- A directory of files: filename to byte content.  Used for the served
directory of the server and the download directory of the client. -/
abbrev FS := List (String × List Nat)

def lookupFile : FS → String → Option (List Nat)
  | [], _ => none
  | (n, c) :: rest, fn => if n = fn then some c else lookupFile rest fn

/-- Writing a file (`open(filepath, 'wb')` followed by writes): creates the
file or overwrites an existing file of the same name. -/
def insertFile : FS → String → List Nat → FS
  | [], fn, c => [(fn, c)]
  | (n, d) :: rest, fn, c =>
      if n = fn then (fn, c) :: rest else (n, d) :: insertFile rest fn c

/-- One item on the wire, above the framing layer.  Framed JSON control
messages are constructors carrying their fields; `raw` is a run of unframed
chunk payload bytes. -/
inductive Msg
  | error (message : String)
  | fileList (files : List (String × Nat))
  | fileInfo (filename : String) (fileSize nChunks cSize : Nat)
  | fileChunk (chunkNumber totalChunks cSize : Nat)
  | raw (data : List Nat)
  | fileComplete (filename : String)
  | multiStart (totalFiles : Nat) (filenames : List String)
  | multiComplete (totalFiles : Nat)
deriving DecidableEq, Repr

/-- Chunk `i` (0-based) of a file's content: what `f.read(self.chunk_size)`
returns at offset `i * chunk_size` (server.py line 176). -/
def fileChunkAt (content : List Nat) (i : Nat) : List Nat :=
  (content.drop (i * chunk_size)).take chunk_size

/-- The header frame plus raw payload sent per iteration of
`for chunk_num in range(num_chunks)` (server.py lines 175-192).  The header's
`chunk_size` field is `len(chunk_data)`. -/
def chunkMsgs (content : List Nat) (n : Nat) : List Msg :=
  (List.range n).flatMap fun i =>
    [Msg.fileChunk (i + 1) n (fileChunkAt content i).length,
     Msg.raw (fileChunkAt content i)]

/-- server.py `send_file` (lines 145-207): missing file sends a single error
message; otherwise file_info, then the chunk stream, then file_complete. -/
def send_file (dir : FS) (filename : String) : List Msg :=
  match lookupFile dir filename with
  | none => [Msg.error ("File " ++ filename ++ " not found")]
  | some content =>
      Msg.fileInfo filename content.length (num_chunks content.length) chunk_size
        :: (chunkMsgs content (num_chunks content.length)
            ++ [Msg.fileComplete filename])

/-- server.py `send_file_list` (lines 116-143).  The floating point `size_mb`
field is display-only and omitted from the model. -/
def send_file_list (dir : FS) : List Msg :=
  [Msg.fileList (dir.map fun e => (e.1, e.2.length))]

/-- server.py `send_multiple_files` (lines 209-238): start marker, then
`send_file` once per requested name in order, then the completion marker. -/
def send_multiple_files (dir : FS) (filenames : List String) : List Msg :=
  Msg.multiStart filenames.length filenames
    :: (filenames.flatMap (send_file dir) ++ [Msg.multiComplete filenames.length])

/-- One received command frame in the server's connection loop
(server.py `handle_client`, lines 56-86).  `malformed` stands for a frame
whose text `json.loads` rejects (the exception escapes to the outer handler);
`unknownType` is a JSON object whose `type` matches no branch (the loop just
continues). -/
inductive ClientFrame
  | listFiles
  | downloadFile (filename : String)
  | downloadMultiple (filenames : List String)
  | disconnect
  | malformed
  | unknownType
deriving DecidableEq, Repr

/-- server.py `handle_client` (lines 56-86): the messages sent over the whole
connection given the sequence of command frames received.  The list ending
models `receive_message` returning `None` (peer closed).  A `malformed` frame
raises inside the loop; the exception is caught only by the handler that
closes the socket, so nothing further is sent. -/
def handle_client (dir : FS) : List ClientFrame → List Msg
  | [] => []
  | ClientFrame.listFiles :: rest => send_file_list dir ++ handle_client dir rest
  | ClientFrame.downloadFile fn :: rest => send_file dir fn ++ handle_client dir rest
  | ClientFrame.downloadMultiple fns :: rest =>
      send_multiple_files dir fns ++ handle_client dir rest
  | ClientFrame.disconnect :: _ => []
  | ClientFrame.malformed :: _ => []
  | ClientFrame.unknownType :: rest => handle_client dir rest

/-- The client's raw-byte read loop for one chunk in `download_file`
(client.py lines 163-170): reads exactly `cs` bytes; if the peer closes first
(`if not data: return False`) the whole download fails and the partially
received chunk is not written.  `none` is that failure. -/
def readRawS (cs : Nat) (stream : List Msg) : Option (List Nat × List Msg) :=
  if cs = 0 then some ([], stream)
  else
    match stream with
    | Msg.raw d :: rest =>
        if d.length < cs then none
        else if cs < d.length then some (d.take cs, Msg.raw (d.drop cs) :: rest)
        else some (d, rest)
    | _ => none

/-- The chunk loop of client.py `download_file` (lines 151-177).  Returns
(bytes written to the destination file, loop succeeded, rest of stream).
A missing or non-chunk header frame raises / returns False; after a chunk is
written, the progress computation `total_received / file_size` raises
`ZeroDivisionError` when the announced `file_size` is 0. -/
def recvChunksS : Nat → Nat → List Msg → List Nat → List Nat × Bool × List Msg
  | 0, _, s, acc => (acc, true, s)
  | _ + 1, _, [], acc => (acc, false, [])
  | n + 1, fsz, Msg.fileChunk _ _ cs :: rest, acc =>
      (match readRawS cs rest with
       | none => (acc, false, rest)
       | some (d, rest2) =>
           if fsz = 0 then (acc ++ d, false, rest2)
           else recvChunksS n fsz rest2 (acc ++ d))
  | _ + 1, _, s, acc => (acc, false, s)

/-- client.py `download_file` (lines 114-191): returns
(success, download directory after the call, rest of stream).  The
destination file is opened (created / truncated) as soon as a `file_info`
frame is accepted, and holds exactly the bytes the chunk loop wrote,
whether or not the download succeeds. -/
def download_file (fs : FS) (stream : List Msg) : Bool × FS × List Msg :=
  match stream with
  | [] => (false, fs, [])
  | Msg.error _ :: rest => (false, fs, rest)
  | Msg.fileInfo fn fsz n _ :: rest =>
      (match recvChunksS n fsz rest [] with
       | (written, false, rest2) =>
           (false, insertFile (insertFile fs fn []) fn written, rest2)
       | (written, true, rest2) =>
           let fs2 := insertFile (insertFile fs fn []) fn written
           (match rest2 with
            | Msg.fileComplete _ :: rest3 => (true, fs2, rest3)
            | [] => (false, fs2, [])
            | _ :: rest3 => (false, fs2, rest3)))
  | _ :: rest => (false, fs, rest)

/-- The raw-byte read loop for one chunk in `download_multiple_files`
(client.py lines 264-271): on peer close it only breaks the inner loop, so
the partially received bytes are still written.  Returns (bytes read, rest). -/
def readRawM (cs : Nat) (stream : List Msg) : List Nat × List Msg :=
  if cs = 0 then ([], stream)
  else
    match stream with
    | Msg.raw d :: rest =>
        if cs < d.length then (d.take cs, Msg.raw (d.drop cs) :: rest)
        else (d, rest)
    | s => ([], s)

/-- Outcome of the chunk loop in the multi-file download (client.py lines
252-278): `done` = all iterations ran, `broke` = `break` on a missing chunk
header, `abort` = an exception escaped to the outer handler (non-chunk header
frame, or division by zero on `file_size == 0`). -/
inductive ChunkOutcome
  | done
  | broke
  | abort
deriving DecidableEq, Repr

/-- The chunk loop of `download_multiple_files` (client.py lines 252-278). -/
def recvChunksM : Nat → Nat → List Msg → List Nat → List Nat × ChunkOutcome × List Msg
  | 0, _, s, acc => (acc, ChunkOutcome.done, s)
  | _ + 1, _, [], acc => (acc, ChunkOutcome.broke, [])
  | n + 1, fsz, Msg.fileChunk _ _ cs :: rest, acc =>
      (match readRawM cs rest with
       | (d, rest2) =>
           if fsz = 0 then (acc ++ d, ChunkOutcome.abort, rest2)
           else recvChunksM n fsz rest2 (acc ++ d))
  | _ + 1, _, s, acc => (acc, ChunkOutcome.abort, s)

/-- Outcome of one per-file iteration in `download_multiple_files`
(client.py lines 222-285): `success` = got `file_complete`, `skipped` = the
per-file frame was an error (missing file, `continue`), `failed` = the file
completion frame was missing or had another type (no abort), `abort` = an
exception aborts the whole session. -/
inductive FOutcome
  | success
  | skipped
  | failed
  | abort
deriving DecidableEq, Repr

/-- One iteration of the per-file loop in `download_multiple_files`
(client.py lines 222-285). -/
def recvOneFileM (fs : FS) : List Msg → FOutcome × FS × List Msg
  | [] => (FOutcome.abort, fs, [])
  | Msg.error _ :: rest => (FOutcome.skipped, fs, rest)
  | Msg.fileInfo fn fsz n _ :: rest =>
      (match recvChunksM n fsz rest [] with
       | (written, oc, rest2) =>
           let fs2 := insertFile (insertFile fs fn []) fn written
           if oc = ChunkOutcome.abort then (FOutcome.abort, fs2, rest2)
           else
             (match rest2 with
              | Msg.fileComplete _ :: rest3 => (FOutcome.success, fs2, rest3)
              | [] => (FOutcome.failed, fs2, [])
              | _ :: rest3 => (FOutcome.failed, fs2, rest3)))
  | _ :: rest => (FOutcome.abort, fs, rest)

/-- The per-file loop of `download_multiple_files`, run `total` times (the
count announced in `multiple_transfer_start`).  Returns
(number of files reported successfully downloaded, session aborted,
download directory, rest of stream). -/
def downloadLoopM : Nat → FS → List Msg → Nat × Bool × FS × List Msg
  | 0, fs, s => (0, false, fs, s)
  | t + 1, fs, s =>
      (match recvOneFileM fs s with
       | (o, fs1, s1) =>
           if o = FOutcome.abort then (0, true, fs1, s1)
           else
             (match downloadLoopM t fs1 s1 with
              | (c, ab, fs2, s2) =>
                  ((if o = FOutcome.success then 1 else 0) + c, ab, fs2, s2)))

/-- client.py `download_multiple_files` (lines 193-299): returns
(success, number of files reported successfully downloaded, download
directory).  The final frame is accepted when its type is
`multiple_transfer_complete`; its `total_files` field is not read. -/
def download_multiple_files (fs : FS) (stream : List Msg) : Bool × Nat × FS :=
  match stream with
  | [] => (false, 0, fs)
  | Msg.error _ :: _ => (false, 0, fs)
  | Msg.multiStart total _ :: rest =>
      (match downloadLoopM total fs rest with
       | (c, ab, fs1, s1) =>
           if ab then (false, c, fs1)
           else
             (match s1 with
              | Msg.multiComplete _ :: _ => (true, c, fs1)
              | _ => (false, c, fs1)))
  | _ :: _ => (false, 0, fs)

/-! ### Byte layer: the framing primitive `receive_message`

The incoming TCP data is modelled as a schedule of delivery segments: a call
`recv(k)` returns bytes from the front of the first segment (at most `k` of
them, possibly fewer than `k` even though more data is pending in later
segments), and returns no bytes once the schedule is exhausted (peer closed).
-/

/-- A schedule of socket delivery segments. -/
abbrev Segs := List (List Nat)

/-- `socket.recv(k)`: returns between 0 and `k` bytes; an empty result means
the peer closed the connection. -/
def sockRecv (k : Nat) : Segs → List Nat × Segs
  | [] => ([], [])
  | s :: rest => if s.length ≤ k then (s, rest) else (s.take k, s.drop k :: rest)

/-- Total number of pending bytes in a schedule. -/
def totalBytes (segs : Segs) : Nat := (segs.map List.length).sum

/-- The payload read loop of `receive_message` (server.py lines 99-104,
client.py lines 65-70): `while len(message_data) < message_length:
chunk = recv(min(message_length - len(message_data), 4096))`, failing if a
read returns no bytes.  The first argument is fuel; since every successful
read returns at least one byte, fuel equal to the number of still-needed
bytes is enough, and the fuel-exhausted branch is unreachable for the
wrapper `recvLoop` below. -/
def recvLoopF : Nat → Nat → Segs → List Nat × Bool × Segs
  | _, 0, segs => ([], true, segs)
  | 0, _ + 1, segs => ([], false, segs)
  | f + 1, need + 1, segs =>
      (match sockRecv (min (need + 1) 4096) segs with
       | ([], segs1) => ([], false, segs1)
       | (b :: bs, segs1) =>
           (match recvLoopF f (need + 1 - (b :: bs).length) segs1 with
            | (more, ok, segs2) => ((b :: bs) ++ more, ok, segs2)))

/-- Read exactly `need` bytes, looping over short reads. -/
def recvLoop (need : Nat) (segs : Segs) : List Nat × Bool × Segs :=
  recvLoopF need need segs

/-- Big-endian decoding, `int.from_bytes(length_data, byteorder='big')`:
note it accepts byte strings of any length, including fewer than 4 bytes. -/
def fromBytesBE (l : List Nat) : Nat := l.foldl (fun acc b => acc * 256 + b) 0

/-- Big-endian encoding of a length on exactly 4 bytes,
`len(message_bytes).to_bytes(4, byteorder='big')`. -/
def toBytesBE4 (n : Nat) : List Nat :=
  [n / 16777216 % 256, n / 65536 % 256, n / 256 % 256, n % 256]

/-- `receive_message` (server.py lines 88-108, client.py lines 54-74): a
single `recv(4)` for the length prefix — not a loop — returning `None` if it
yields no bytes; then the payload loop; any failure also returns `None`. -/
def receive_message (segs : Segs) : Option (List Nat) × Segs :=
  match sockRecv 4 segs with
  | ([], segs1) => (none, segs1)
  | (b :: bs, segs1) =>
      (match recvLoop (fromBytesBE (b :: bs)) segs1 with
       | (data, ok, segs2) => if ok then (some data, segs2) else (none, segs2))

/-- The receive operation as the spec words it: the 4 length-prefix bytes are
read exactly, looping over short reads, before being decoded.  This
definition follows the spec text and is compared against the implementation
(`receive_message`). -/
def receive_message_spec (segs : Segs) : Option (List Nat) × Segs :=
  match recvLoop 4 segs with
  | (_, false, segs1) => (none, segs1)
  | (ld, true, segs1) =>
      (match recvLoop (fromBytesBE ld) segs1 with
       | (data, ok, segs2) => if ok then (some data, segs2) else (none, segs2))

/-! ### Definitions used only to state and prove the claims -/

/-- The declared `chunk_size` fields of the chunk header frames in a message
stream, in order. -/
def declaredChunkSizes (msgs : List Msg) : List Nat :=
  msgs.filterMap fun m =>
    match m with
    | Msg.fileChunk _ _ cs => some cs
    | _ => none

/-- A list of (chunkNumber, totalChunks, data) pieces rendered as the
header-then-raw message stream. -/
def pieceMsgs : List (Nat × Nat × List Nat) → List Msg
  | [] => []
  | (num, tot, d) :: rest =>
      Msg.fileChunk num tot d.length :: Msg.raw d :: pieceMsgs rest

/-- The client download directory after the server has served (or skipped)
each requested file of a multi-file session. -/
def writeAll (dir : FS) (fs : FS) : List String → FS
  | [] => fs
  | g :: gs =>
      writeAll dir
        (match lookupFile dir g with
         | some c => insertFile fs g c
         | none => fs) gs

/-! ### Arithmetic facts about `num_chunks` -/

lemma chunk_size_pos : 0 < chunk_size := by norm_num [chunk_size]

lemma le_num_chunks_mul (len : Nat) : len ≤ num_chunks len * chunk_size := by
  unfold num_chunks chunk_size
  omega

lemma num_chunks_pred_mul_lt (len : Nat) (h : 0 < num_chunks len) :
    (num_chunks len - 1) * chunk_size < len := by
  unfold num_chunks chunk_size at *
  omega

lemma num_chunks_eq_zero : num_chunks 0 = 0 := by
  unfold num_chunks chunk_size
  decide

/-! ### Association list store lemmas -/

lemma lookupFile_insertFile_self (fs : FS) (fn : String) (c : List Nat) :
    lookupFile (insertFile fs fn c) fn = some c := by
  induction fs with
  | nil => simp [insertFile, lookupFile]
  | cons e rest ih =>
      obtain ⟨n, d⟩ := e
      by_cases h : n = fn
      · simp [insertFile, lookupFile, h]
      · simp [insertFile, lookupFile, h, ih]

lemma lookupFile_insertFile_ne (fs : FS) (fn g : String) (c : List Nat)
    (h : g ≠ fn) : lookupFile (insertFile fs fn c) g = lookupFile fs g := by
  induction fs with
  | nil => simp [insertFile, lookupFile, Ne.symm h]
  | cons e rest ih =>
      obtain ⟨n, d⟩ := e
      by_cases hn : n = fn
      · subst hn
        simp [insertFile, lookupFile, Ne.symm h]
      · by_cases hg : n = g
        · subst hg
          simp [insertFile, lookupFile, hn]
        · simp [insertFile, lookupFile, hn, hg, ih]

lemma insertFile_insertFile (fs : FS) (fn : String) (a b : List Nat) :
    insertFile (insertFile fs fn a) fn b = insertFile fs fn b := by
  induction fs with
  | nil => simp [insertFile]
  | cons e rest ih =>
      obtain ⟨n, d⟩ := e
      by_cases h : n = fn
      · simp [insertFile, h]
      · simp [insertFile, h, ih]

/-! ### The chunk decomposition of a file -/

lemma fileChunkAt_succ (content : List Nat) (i : Nat) :
    fileChunkAt content (i + 1) = fileChunkAt (content.drop chunk_size) i := by
  unfold fileChunkAt
  rw [List.drop_drop, Nat.succ_mul, Nat.add_comm]

lemma fileChunkAt_zero (content : List Nat) :
    fileChunkAt content 0 = content.take chunk_size := by
  simp [fileChunkAt]

lemma length_fileChunkAt (content : List Nat) (i : Nat) :
    (fileChunkAt content i).length = min chunk_size (content.length - i * chunk_size) := by
  simp [fileChunkAt]

/-- Concatenating the `n` chunks of a file recovers the file, as soon as
`n` chunks are enough to cover it. -/
lemma flatten_chunks : ∀ (n : Nat) (content : List Nat),
    content.length ≤ n * chunk_size →
    ((List.range n).map (fileChunkAt content)).flatten = content := by
  intro n
  induction n with
  | zero =>
      intro content h
      simp only [Nat.zero_mul, Nat.le_zero] at h
      simp [List.length_eq_zero.mp h]
  | succ n ih =>
      intro content h
      rw [List.range_succ_eq_map]
      simp only [List.map_cons, List.map_map, List.flatten_cons]
      have hmap : (List.range n).map (fileChunkAt content ∘ Nat.succ)
          = (List.range n).map (fileChunkAt (content.drop chunk_size)) := by
        refine List.map_congr_left ?_
        intro i _
        simpa [Function.comp] using fileChunkAt_succ content i
      have hlen : (content.drop chunk_size).length ≤ n * chunk_size := by
        rw [Nat.succ_mul] at h
        simp only [List.length_drop]
        omega
      rw [hmap, ih (content.drop chunk_size) hlen, fileChunkAt_zero,
        List.take_append_drop]

lemma fileChunkAt_ne_nil (content : List Nat) (i : Nat)
    (h : i * chunk_size < content.length) : fileChunkAt content i ≠ [] := by
  intro hc
  have hlen := congrArg List.length hc
  rw [length_fileChunkAt] at hlen
  simp only [List.length_nil] at hlen
  have hcs := chunk_size_pos
  omega

/-- Every chunk index below the chunk count the server computes starts
inside the file. -/
lemma mul_lt_of_lt_num_chunks (len i : Nat) (h : i < num_chunks len) :
    i * chunk_size < len := by
  have h1 : (num_chunks len - 1) * chunk_size < len :=
    num_chunks_pred_mul_lt _ (Nat.pos_of_ne_zero (by omega))
  have h2 : i * chunk_size ≤ (num_chunks len - 1) * chunk_size :=
    Nat.mul_le_mul_right _ (by omega)
  omega

/-! ### `pieceMsgs` and the chunk reception loops -/

lemma chunkMsgs_eq_pieceMsgs (content : List Nat) (n : Nat) :
    chunkMsgs content n
      = pieceMsgs ((List.range n).map fun i => (i + 1, n, fileChunkAt content i)) := by
  unfold chunkMsgs
  induction (List.range n) with
  | nil => rfl
  | cons i l ih => simp [pieceMsgs, ih]

/-- The single-file chunk loop consumes exactly the stream of header/raw
pairs for the given pieces and writes their concatenation. -/
lemma recvChunksS_pieceMsgs :
    ∀ (ps : List (Nat × Nat × List Nat)) (fsz : Nat) (acc : List Nat) (tail : List Msg),
    fsz ≠ 0 → (∀ p ∈ ps, p.2.2 ≠ ([] : List Nat)) →
    recvChunksS ps.length fsz (pieceMsgs ps ++ tail) acc
      = (acc ++ (ps.map fun p => p.2.2).flatten, true, tail) := by
  intro ps
  induction ps with
  | nil => intro fsz acc tail hf _; simp [pieceMsgs, recvChunksS]
  | cons p ps ih =>
      intro fsz acc tail hf hne
      obtain ⟨num, tot, d⟩ := p
      have hd : d ≠ [] := hne (num, tot, d) (List.mem_cons_self _ _)
      have hdl : d.length ≠ 0 := by simpa using hd
      simp only [pieceMsgs, List.length_cons, List.cons_append]
      rw [recvChunksS]
      have hraw : readRawS d.length (Msg.raw d :: (pieceMsgs ps ++ tail))
          = some (d, pieceMsgs ps ++ tail) := by
        simp [readRawS, hdl]
      rw [hraw]
      simp only [hf, if_false]
      rw [ih fsz (acc ++ d) tail hf (fun q hq => hne q (List.mem_cons_of_mem _ hq))]
      simp

/-- The multi-file chunk loop on the same well-formed stream: consumes it all
and reports `done`. -/
lemma recvChunksM_pieceMsgs :
    ∀ (ps : List (Nat × Nat × List Nat)) (fsz : Nat) (acc : List Nat) (tail : List Msg),
    fsz ≠ 0 → (∀ p ∈ ps, p.2.2 ≠ ([] : List Nat)) →
    recvChunksM ps.length fsz (pieceMsgs ps ++ tail) acc
      = (acc ++ (ps.map fun p => p.2.2).flatten, ChunkOutcome.done, tail) := by
  intro ps
  induction ps with
  | nil => intro fsz acc tail hf _; simp [pieceMsgs, recvChunksM]
  | cons p ps ih =>
      intro fsz acc tail hf hne
      obtain ⟨num, tot, d⟩ := p
      have hd : d ≠ [] := hne (num, tot, d) (List.mem_cons_self _ _)
      have hdl : d.length ≠ 0 := by simpa using hd
      simp only [pieceMsgs, List.length_cons, List.cons_append]
      rw [recvChunksM]
      have hraw : readRawM d.length (Msg.raw d :: (pieceMsgs ps ++ tail))
          = (d, pieceMsgs ps ++ tail) := by
        simp [readRawM, hdl]
      rw [hraw]
      simp only [hf, if_false]
      rw [ih fsz (acc ++ d) tail hf (fun q hq => hne q (List.mem_cons_of_mem _ hq))]
      simp

/-! ### Happy-path behaviour of the download routines -/

lemma nonempty_chunk_pieces (content : List Nat) (n : Nat)
    (hlt : ∀ i, i < n → i * chunk_size < content.length) :
    ∀ p ∈ (List.range n).map (fun i => (i + 1, n, fileChunkAt content i)),
      p.2.2 ≠ ([] : List Nat) := by
  intro p hp
  obtain ⟨i, hi, rfl⟩ := List.mem_map.mp hp
  exact fileChunkAt_ne_nil content i (hlt i (List.mem_range.mp hi))

lemma flatten_chunk_pieces (content : List Nat) (n : Nat)
    (hcov : content.length ≤ n * chunk_size) :
    (((List.range n).map (fun i => (i + 1, n, fileChunkAt content i))).map
        (fun p => p.2.2)).flatten = content := by
  rw [List.map_map]
  have hcomp : ((fun (p : Nat × Nat × List Nat) => p.2.2)
      ∘ fun i => (i + 1, n, fileChunkAt content i))
      = fileChunkAt content := rfl
  rw [hcomp]
  exact flatten_chunks n content hcov

/-- Unfolding of `download_file` on a stream that starts with a `file_info`
frame, with the chunk-loop result left as is. -/
lemma download_file_fileInfo (fs : FS) (fn : String) (fsz n cs : Nat) (rest : List Msg) :
    download_file fs (Msg.fileInfo fn fsz n cs :: rest)
      = (match recvChunksS n fsz rest [] with
         | (written, false, rest2) =>
             (false, insertFile (insertFile fs fn []) fn written, rest2)
         | (written, true, rest2) =>
             let fs2 := insertFile (insertFile fs fn []) fn written
             (match rest2 with
              | Msg.fileComplete _ :: rest3 => (true, fs2, rest3)
              | [] => (false, fs2, [])
              | _ :: rest3 => (false, fs2, rest3))) := rfl

/-- A present file is downloaded in full: `download_file` consumes exactly
the stream `send_file` produced, succeeds, and writes the file's bytes. -/
lemma download_file_sent (dir : FS) (fn : String) (content : List Nat) (fs : FS)
    (h : lookupFile dir fn = some content) :
    download_file fs (send_file dir fn) = (true, insertFile fs fn content, []) := by
  have hstream : send_file dir fn
      = Msg.fileInfo fn content.length (num_chunks content.length) chunk_size
        :: (chunkMsgs content (num_chunks content.length)
            ++ [Msg.fileComplete fn]) := by
    simp only [send_file, h]
  rw [hstream]
  have hcov := le_num_chunks_mul content.length
  have hlt := mul_lt_of_lt_num_chunks content.length
  generalize hgen : num_chunks content.length = n
  rw [hgen] at hcov hlt
  rw [download_file_fileInfo]
  by_cases hc : content.length = 0
  · have hnil : content = [] := List.length_eq_zero.mp hc
    subst hnil
    have hz : n = 0 := by rw [← hgen]; exact num_chunks_eq_zero
    subst hz
    simp [chunkMsgs, recvChunksS, insertFile_insertFile]
  · rw [chunkMsgs_eq_pieceMsgs]
    have key := recvChunksS_pieceMsgs
      ((List.range n).map (fun i => (i + 1, n, fileChunkAt content i)))
      content.length [] [Msg.fileComplete fn] hc
      (nonempty_chunk_pieces content n hlt)
    rw [List.length_map, List.length_range, flatten_chunk_pieces content n hcov,
      List.nil_append] at key
    rw [key]
    simp [insertFile_insertFile]

/-- Unfolding of the per-file iteration on a stream that starts with a
`file_info` frame, with the chunk-loop result left as is. -/
lemma recvOneFileM_fileInfo (fs : FS) (fn : String) (fsz n cs : Nat) (rest : List Msg) :
    recvOneFileM fs (Msg.fileInfo fn fsz n cs :: rest)
      = (match recvChunksM n fsz rest [] with
         | (written, oc, rest2) =>
             let fs2 := insertFile (insertFile fs fn []) fn written
             if oc = ChunkOutcome.abort then (FOutcome.abort, fs2, rest2)
             else
               (match rest2 with
                | Msg.fileComplete _ :: rest3 => (FOutcome.success, fs2, rest3)
                | [] => (FOutcome.failed, fs2, [])
                | _ :: rest3 => (FOutcome.failed, fs2, rest3))) := rfl

/-- A present file inside a multi-file session: one per-file iteration
consumes exactly the `send_file` stream, reports success and writes the
file's bytes. -/
lemma recvOneFileM_sent (dir : FS) (fn : String) (content : List Nat) (fs : FS)
    (S : List Msg) (h : lookupFile dir fn = some content) :
    recvOneFileM fs (send_file dir fn ++ S)
      = (FOutcome.success, insertFile fs fn content, S) := by
  have hsf : send_file dir fn
      = Msg.fileInfo fn content.length (num_chunks content.length) chunk_size
        :: (chunkMsgs content (num_chunks content.length)
            ++ [Msg.fileComplete fn]) := by
    simp only [send_file, h]
  have hcov := le_num_chunks_mul content.length
  have hlt := mul_lt_of_lt_num_chunks content.length
  obtain ⟨n, hgen⟩ : ∃ n, num_chunks content.length = n := ⟨_, rfl⟩
  rw [hgen] at hsf hcov hlt
  rw [hsf]
  simp only [List.cons_append, List.append_assoc, List.singleton_append,
    List.nil_append]
  rw [recvOneFileM_fileInfo]
  by_cases hc : content.length = 0
  · have hnil : content = [] := List.length_eq_zero.mp hc
    subst hnil
    have hz : n = 0 := by rw [← hgen]; exact num_chunks_eq_zero
    subst hz
    simp [chunkMsgs, recvChunksM, insertFile_insertFile]
  · rw [chunkMsgs_eq_pieceMsgs]
    have key := recvChunksM_pieceMsgs
      ((List.range n).map (fun i => (i + 1, n, fileChunkAt content i)))
      content.length [] (Msg.fileComplete fn :: S) hc
      (nonempty_chunk_pieces content n hlt)
    rw [List.length_map, List.length_range, flatten_chunk_pieces content n hcov,
      List.nil_append] at key
    rw [key]
    simp [insertFile_insertFile]

/-- A missing file inside a multi-file session: the per-file error frame is
consumed, the client continues, and no file is written. -/
lemma recvOneFileM_error (fs : FS) (m : String) (S : List Msg) :
    recvOneFileM fs (Msg.error m :: S) = (FOutcome.skipped, fs, S) := by
  simp [recvOneFileM]

/-- Unfolding of one step of the per-file loop. -/
lemma downloadLoopM_succ (t : Nat) (fs : FS) (s : List Msg) :
    downloadLoopM (t + 1) fs s
      = (match recvOneFileM fs s with
         | (o, fs1, s1) =>
             if o = FOutcome.abort then (0, true, fs1, s1)
             else
               (match downloadLoopM t fs1 s1 with
                | (c, ab, fs2, s2) =>
                    ((if o = FOutcome.success then 1 else 0) + c, ab, fs2, s2))) := rfl

/-- The per-file loop run against the full server stream of a multi-file
session: never aborts, reports one success per existing file, consumes
exactly the per-file streams, and writes each existing file. -/
lemma downloadLoopM_sent (dir : FS) :
    ∀ (fns : List String) (fs : FS) (tail : List Msg),
    downloadLoopM fns.length fs (fns.flatMap (send_file dir) ++ tail)
      = ((fns.filter fun g => (lookupFile dir g).isSome).length, false,
         writeAll dir fs fns, tail) := by
  intro fns
  induction fns with
  | nil => intro fs tail; simp [downloadLoopM, writeAll]
  | cons g gs ih =>
      intro fs tail
      cases hg : lookupFile dir g with
      | none =>
          have hsf : send_file dir g = [Msg.error ("File " ++ g ++ " not found")] := by
            simp only [send_file, hg]
          simp only [List.flatMap_cons, hsf, List.singleton_append, List.length_cons,
            List.cons_append, List.nil_append]
          rw [downloadLoopM_succ, recvOneFileM_error]
          simp only []
          rw [ih fs tail]
          simp [List.filter_cons, hg, writeAll]
      | some c =>
          have hone := recvOneFileM_sent dir g c fs (gs.flatMap (send_file dir) ++ tail) hg
          simp only [List.flatMap_cons, List.length_cons, List.append_assoc]
          rw [downloadLoopM_succ, hone]
          simp only []
          rw [ih (insertFile fs g c) tail]
          simp only [List.filter_cons, hg, Option.isSome_some, if_true, List.length_cons,
            writeAll]
          rw [Nat.add_comm]
          simp

/-- `writeAll` leaves files it does not touch alone. -/
lemma lookupFile_writeAll_not_mem (dir : FS) :
    ∀ (fns : List String) (fs : FS) (fn : String), fn ∉ fns →
    lookupFile (writeAll dir fs fns) fn = lookupFile fs fn := by
  intro fns
  induction fns with
  | nil => intro fs fn _; rfl
  | cons g gs ih =>
      intro fs fn hmem
      have hg : fn ≠ g := fun hh => hmem (hh ▸ List.mem_cons_self g gs)
      have hgs : fn ∉ gs := fun hh => hmem (List.mem_cons_of_mem _ hh)
      cases hc : lookupFile dir g with
      | none => simp only [writeAll, hc]; exact ih fs fn hgs
      | some c =>
          simp only [writeAll, hc]
          rw [ih _ fn hgs, lookupFile_insertFile_ne _ _ _ _ hg]

/-- Every requested file that exists in the served directory ends up in the
download directory with the served bytes. -/
lemma lookupFile_writeAll_mem (dir : FS) :
    ∀ (fns : List String) (fs : FS) (fn : String) (c : List Nat),
    lookupFile dir fn = some c → fn ∈ fns →
    lookupFile (writeAll dir fs fns) fn = some c := by
  intro fns
  induction fns with
  | nil => intro fs fn c _ hmem; exact absurd hmem (List.not_mem_nil fn)
  | cons g gs ih =>
      intro fs fn c hdir hmem
      by_cases hgs : fn ∈ gs
      · cases hc : lookupFile dir g with
        | none => simp only [writeAll, hc]; exact ih fs fn c hdir hgs
        | some d => simp only [writeAll, hc]; exact ih _ fn c hdir hgs
      · have hfg : fn = g := by
          rcases List.mem_cons.mp hmem with h | h
          · exact h
          · exact absurd h hgs
        subst hfg
        simp only [writeAll, hdir]
        rw [lookupFile_writeAll_not_mem dir gs _ fn hgs,
          lookupFile_insertFile_self]

/-! ### Byte-layer lemmas about the framing primitive -/

lemma sockRecv_fst_length_le (k : Nat) (segs : Segs) :
    (sockRecv k segs).1.length ≤ k ∧
    (sockRecv k segs).1.length ≤ totalBytes segs ∧
    totalBytes (sockRecv k segs).2 = totalBytes segs - (sockRecv k segs).1.length := by
  cases segs with
  | nil => simp [sockRecv, totalBytes]
  | cons s rest =>
      by_cases h : s.length ≤ k
      · simp only [sockRecv, if_pos h, totalBytes, List.map_cons, List.sum_cons]
        omega
      · simp only [sockRecv, if_neg h, totalBytes, List.map_cons, List.sum_cons,
          List.length_take, List.length_drop]
        omega

/-- If the schedule holds fewer pending bytes than are needed, the read loop
reports failure (the socket is closed before the declared length arrives). -/
lemma recvLoopF_short : ∀ (f need : Nat) (segs : Segs),
    totalBytes segs < need → (recvLoopF f need segs).2.1 = false := by
  intro f
  induction f with
  | zero =>
      intro need segs h
      cases need with
      | zero => omega
      | succ m => simp [recvLoopF]
  | succ f ih =>
      intro need segs h
      cases need with
      | zero => omega
      | succ m =>
          rw [recvLoopF]
          have hs := sockRecv_fst_length_le (min (m + 1) 4096) segs
          cases hr : sockRecv (min (m + 1) 4096) segs with
          | mk fst snd =>
              rw [hr] at hs
              cases fst with
              | nil => simp
              | cons b bs =>
                  simp only []
                  have hrec := ih (m + 1 - (b :: bs).length) snd (by
                    simp only [List.length_cons] at hs ⊢
                    omega)
                  cases hr2 : recvLoopF f (m + 1 - (b :: bs).length) snd with
                  | mk more rest =>
                      rw [hr2] at hrec
                      simpa using hrec

/-- Reading `need > 0` bytes when the whole amount is already pending in the
first segment: one `recv` returns them all. -/
lemma recvLoopF_head_long (f need : Nat) (s : List Nat) (segs : Segs)
    (h0 : need ≠ 0) (hlen : need ≤ s.length) (h4096 : need ≤ 4096) :
    recvLoopF (f + 1) need (s :: segs)
      = (s.take need, true,
         if s.length ≤ need then segs else s.drop need :: segs) := by
  cases need with
  | zero => omega
  | succ m =>
      rw [recvLoopF]
      have hmin : min (m + 1) 4096 = m + 1 := Nat.min_eq_left h4096
      rw [hmin]
      cases s with
      | nil => simp at hlen
      | cons a s2 =>
          by_cases hsl : (a :: s2).length ≤ m + 1
          · have hexact : (a :: s2).length = m + 1 := le_antisymm hsl hlen
            simp only [sockRecv, if_pos hsl]
            rw [hexact]
            simp only [Nat.sub_self]
            rw [recvLoopF]
            simp [List.take_of_length_le (le_of_eq hexact), hsl]
          · simp only [sockRecv, if_neg hsl]
            have htk : (a :: s2).take (m + 1) = a :: s2.take m := rfl
            rw [htk]
            have hlt : (a :: s2.take m).length = m + 1 := by
              simp only [List.length_cons, List.length_take]
              have : m ≤ s2.length := by
                simp only [List.length_cons] at hsl
                omega
              omega
            simp only []
            rw [hlt, Nat.sub_self, recvLoopF]
            simp [hsl]

/-- Decoding the 4-byte big-endian encoding of `n < 2^32` gives back `n`. -/
lemma fromBytesBE_toBytesBE4 (n : Nat) (h : n < 4294967296) :
    fromBytesBE (toBytesBE4 n) = n := by
  simp only [toBytesBE4, fromBytesBE, List.foldl_cons, List.foldl_nil]
  omega

/-- Unfolding of `download_multiple_files` on a stream that starts with the
session start marker, with the loop result left as is. -/
lemma download_multiple_multiStart (fs : FS) (total : Nat) (fns : List String)
    (rest : List Msg) :
    download_multiple_files fs (Msg.multiStart total fns :: rest)
      = (match downloadLoopM total fs rest with
         | (c, ab, fs1, s1) =>
             if ab then (false, c, fs1)
             else
               (match s1 with
                | Msg.multiComplete _ :: _ => (true, c, fs1)
                | _ => (false, c, fs1))) := rfl

/-- The declared sizes of the chunk headers the server sends are the lengths
of the chunk reads. -/
lemma declaredChunkSizes_chunkMsgs (content : List Nat) (n : Nat) :
    declaredChunkSizes (chunkMsgs content n)
      = (List.range n).map (fun i => (fileChunkAt content i).length) := by
  unfold chunkMsgs
  induction (List.range n) with
  | nil => rfl
  | cons i l ih =>
      simp only [List.flatMap_cons, List.map_cons, declaredChunkSizes,
        List.filterMap_append, List.filterMap_cons, List.filterMap_nil]
      rw [← ih]
      rfl

/-! ### The claims -/

/-- Claim C1: for every byte content of a served file, a successful
single-file download (DownloadFile command, then FileInfo, chunk headers with
raw chunk bytes, then FileComplete) writes a destination file whose bytes are
identical to the served file's bytes. -/
theorem c1_round_trip (dir : FS) (fn : String) (content : List Nat) (fs : FS)
    (h : lookupFile dir fn = some content) :
    download_file fs (send_file dir fn) = (true, insertFile fs fn content, [])
    ∧ lookupFile (download_file fs (send_file dir fn)).2.1 fn = some content := by
  have hd := download_file_sent dir fn content fs h
  refine ⟨hd, ?_⟩
  rw [hd]
  exact lookupFile_insertFile_self fs fn content

/-- Witness for C1 at a concrete served file. -/
theorem c1_round_trip_witness :
    lookupFile [("a.txt", [1, 2, 3])] "a.txt" = some [1, 2, 3]
    ∧ lookupFile (download_file [] (send_file [("a.txt", [1, 2, 3])] "a.txt")).2.1 "a.txt"
        = some [1, 2, 3] :=
  ⟨by decide, (c1_round_trip [("a.txt", [1, 2, 3])] "a.txt" [1, 2, 3] [] (by decide)).2⟩

/-- Claim C2: for every file_size, the send routine computes `num_chunks`
equal to the ceiling of file_size divided by the fixed chunk size of
1,048,576 bytes, with `num_chunks = 0` for an empty file; `send_file`
announces exactly this value in its FileInfo frame. -/
theorem c2_num_chunks_ceil :
    (∀ file_size : Nat, num_chunks file_size = ceilDivSpec file_size chunk_size)
    ∧ num_chunks 0 = 0
    ∧ (∀ (dir : FS) (fn : String) (content : List Nat),
        lookupFile dir fn = some content →
        (send_file dir fn).head?
          = some (Msg.fileInfo fn content.length (num_chunks content.length)
              chunk_size)) := by
  refine ⟨?_, num_chunks_eq_zero, ?_⟩
  · intro fsz
    unfold num_chunks ceilDivSpec chunk_size
    split <;> omega
  · intro dir fn content h
    simp only [send_file, h]
    rfl

/-- Witness for C2 at a concrete served file. -/
theorem c2_num_chunks_ceil_witness :
    lookupFile [("a.txt", [7])] "a.txt" = some [7]
    ∧ (send_file [("a.txt", [7])] "a.txt").head?
        = some (Msg.fileInfo "a.txt" ([7] : List Nat).length
            (num_chunks ([7] : List Nat).length) chunk_size) :=
  ⟨by decide, c2_num_chunks_ceil.2.2 [("a.txt", [7])] "a.txt" [7] (by decide)⟩

/-- Claim C3: in the sequence of chunk headers the server sends for a served
file, every declared chunk size equals the fixed chunk size except possibly
the last, whose declared size equals `file_size - (num_chunks - 1) *
chunk_size`, and the declared sizes sum to the file size. -/
theorem c3_declared_chunk_sizes (dir : FS) (fn : String) (content : List Nat)
    (h : lookupFile dir fn = some content) :
    (declaredChunkSizes (send_file dir fn)).length = num_chunks content.length
    ∧ (∀ i (hi : i < (declaredChunkSizes (send_file dir fn)).length),
        i + 1 < num_chunks content.length →
        (declaredChunkSizes (send_file dir fn)).get ⟨i, hi⟩ = chunk_size)
    ∧ (0 < num_chunks content.length →
        (declaredChunkSizes (send_file dir fn)).getLast?
          = some (content.length - (num_chunks content.length - 1) * chunk_size))
    ∧ (declaredChunkSizes (send_file dir fn)).sum = content.length := by
  have hsf : send_file dir fn
      = Msg.fileInfo fn content.length (num_chunks content.length) chunk_size
        :: (chunkMsgs content (num_chunks content.length)
            ++ [Msg.fileComplete fn]) := by
    simp only [send_file, h]
  have hcov := le_num_chunks_mul content.length
  have hpred := num_chunks_pred_mul_lt content.length
  obtain ⟨n, hgen⟩ : ∃ n, num_chunks content.length = n := ⟨_, rfl⟩
  rw [hgen] at hsf hcov hpred ⊢
  have hdcs : declaredChunkSizes (send_file dir fn)
      = (List.range n).map (fun i => (fileChunkAt content i).length) := by
    rw [hsf]
    simp only [declaredChunkSizes, List.filterMap_cons, List.filterMap_append,
      List.filterMap_nil]
    rw [← declaredChunkSizes_chunkMsgs]
    simp [declaredChunkSizes]
  rw [hdcs]
  have hcspos := chunk_size_pos
  refine ⟨by simp, ?_, ?_, ?_⟩
  · intro i hi hin
    rw [List.get_eq_getElem]
    have hi2 : i < n := by simpa using hi
    simp only [List.getElem_map, List.getElem_range]
    rw [length_fileChunkAt]
    have hmul : i * chunk_size + chunk_size ≤ (n - 1) * chunk_size := by
      have := Nat.mul_le_mul_right chunk_size (show i + 1 ≤ n - 1 by omega)
      rw [Nat.succ_mul] at this
      exact this
    have hlen := hpred (by omega)
    omega
  · intro hn
    obtain ⟨m, rfl⟩ : ∃ m, n = m + 1 := ⟨n - 1, by omega⟩
    rw [List.range_succ, List.map_append, List.map_cons, List.map_nil,
      List.getLast?_concat]
    rw [length_fileChunkAt]
    have hm : m + 1 - 1 = m := by omega
    rw [hm]
    have h2 : (m + 1) * chunk_size = m * chunk_size + chunk_size :=
      Nat.succ_mul m chunk_size
    rw [h2] at hcov
    rw [Nat.min_eq_right (by omega)]
  · have hmaps : (List.range n).map (fun i => (fileChunkAt content i).length)
        = ((List.range n).map (fileChunkAt content)).map List.length := by
      simp [List.map_map]
    rw [hmaps, ← List.length_flatten, flatten_chunks n content hcov]

/-- Witness for C3 at a concrete served file of 3 bytes (one chunk). -/
theorem c3_declared_chunk_sizes_witness :
    lookupFile [("a.txt", [9, 9, 9])] "a.txt" = some [9, 9, 9]
    ∧ (declaredChunkSizes (send_file [("a.txt", [9, 9, 9])] "a.txt")).sum
        = ([9, 9, 9] : List Nat).length :=
  ⟨by decide,
   (c3_declared_chunk_sizes [("a.txt", [9, 9, 9])] "a.txt" [9, 9, 9]
     (by decide)).2.2.2⟩

/-- Counterexample for C4: a malformed command frame (text `json.loads`
rejects) makes the connection loop exit without sending any Error message and
without serving the next command — the connection output is empty, although
the same ListFiles command alone is answered.  The claim predicts an Error
message followed by the file list. -/
theorem c4_counterexample :
    handle_client [("a.txt", [65])] [ClientFrame.malformed, ClientFrame.listFiles] = []
    ∧ handle_client [("a.txt", [65])] [ClientFrame.listFiles]
        = [Msg.fileList [("a.txt", 1)]] :=
  ⟨rfl, rfl⟩

/-- Claim C4 as amended: exceptions inside the per-request handlers are
caught and reported as an Error message with the loop continuing — a
DownloadFile for a missing file yields an Error frame and the loop serves the
following commands — but an exception while decoding the command itself
(malformed JSON) terminates the loop and closes the connection without
sending an Error. -/
theorem c4_amended :
    (∀ (dir : FS) (fn : String) (rest : List ClientFrame),
      lookupFile dir fn = none →
      handle_client dir (ClientFrame.downloadFile fn :: rest)
        = Msg.error ("File " ++ fn ++ " not found") :: handle_client dir rest)
    ∧ (∀ (dir : FS) (rest : List ClientFrame),
        handle_client dir (ClientFrame.malformed :: rest) = []) := by
  constructor
  · intro dir fn rest h
    simp [handle_client, send_file, h]
  · intro dir rest
    rfl

/-- Witness for the amended C4 at a concrete missing file. -/
theorem c4_amended_witness :
    lookupFile [] "ghost.txt" = none
    ∧ handle_client [] [ClientFrame.downloadFile "ghost.txt"]
        = Msg.error ("File " ++ "ghost.txt" ++ " not found") :: handle_client [] [] :=
  ⟨rfl, c4_amended.1 [] "ghost.txt" [] rfl⟩

/-- Claim C7: for a filename not in the served directory, the server sends
exactly one Error message and nothing else for that request, and the client's
`download_file` consumes it, returns failure, and leaves its download
directory untouched (no destination file is created). -/
theorem c7_missing_file (dir : FS) (fn : String) (h : lookupFile dir fn = none) :
    send_file dir fn = [Msg.error ("File " ++ fn ++ " not found")]
    ∧ (∀ (fs : FS) (rest : List Msg),
        download_file fs (send_file dir fn ++ rest) = (false, fs, rest)) := by
  have hsf : send_file dir fn = [Msg.error ("File " ++ fn ++ " not found")] := by
    simp only [send_file, h]
  refine ⟨hsf, ?_⟩
  intro fs rest
  rw [hsf]
  rfl

/-- Witness for C7 at a concrete missing file. -/
theorem c7_missing_file_witness :
    lookupFile [("present.txt", [1])] "ghost.txt" = none
    ∧ download_file [("present.txt", [1])]
        (send_file [("present.txt", [1])] "ghost.txt" ++ [])
        = (false, [("present.txt", [1])], []) :=
  ⟨by decide,
   (c7_missing_file [("present.txt", [1])] "ghost.txt" (by decide)).2
     [("present.txt", [1])] []⟩

/-- Claim C8: in a multi-file request where some filenames do not exist, the
server still serves every existing file in order, the client skips each
missing file on its per-file Error and finishes the session (no abort), the
number of files reported successfully downloaded is `total_files` minus the
number of missing names, and every existing requested file ends up in the
download directory with the served bytes. -/
theorem c8_multi_missing (dir : FS) (fns : List String) (fs : FS) :
    (download_multiple_files fs (send_multiple_files dir fns)).1 = true
    ∧ (download_multiple_files fs (send_multiple_files dir fns)).2.1
        = (fns.filter fun g => (lookupFile dir g).isSome).length
    ∧ (download_multiple_files fs (send_multiple_files dir fns)).2.1
        + (fns.filter fun g => (lookupFile dir g).isNone).length = fns.length
    ∧ (∀ (fn : String) (c : List Nat), fn ∈ fns → lookupFile dir fn = some c →
        lookupFile (download_multiple_files fs (send_multiple_files dir fns)).2.2 fn
          = some c) := by
  have hload := downloadLoopM_sent dir fns fs [Msg.multiComplete fns.length]
  have hdm : download_multiple_files fs (send_multiple_files dir fns)
      = (true, (fns.filter fun g => (lookupFile dir g).isSome).length,
         writeAll dir fs fns) := by
    rw [send_multiple_files, download_multiple_multiStart, hload]
    rfl
  refine ⟨by rw [hdm], by rw [hdm], ?_, ?_⟩
  · rw [hdm]
    have hnone : (fns.filter fun g => (lookupFile dir g).isNone)
        = (fns.filter fun g => !(lookupFile dir g).isSome) := by
      apply List.filter_congr
      intro g _
      cases lookupFile dir g <;> rfl
    rw [hnone]
    exact (List.length_eq_length_filter_add (fun g => (lookupFile dir g).isSome)).symm
  · intro fn c hmem hdir
    rw [hdm]
    exact lookupFile_writeAll_mem dir fns fs fn c hdir hmem

/-- Witness for C8 at a session of three requested names, one missing. -/
theorem c8_multi_missing_witness :
    ("a.txt" : String) ∈ ["a.txt", "ghost.txt", "b.txt"]
    ∧ lookupFile [("a.txt", [1]), ("b.txt", [2])] "a.txt" = some [1]
    ∧ (download_multiple_files []
        (send_multiple_files [("a.txt", [1]), ("b.txt", [2])]
          ["a.txt", "ghost.txt", "b.txt"])).1 = true
    ∧ lookupFile (download_multiple_files []
        (send_multiple_files [("a.txt", [1]), ("b.txt", [2])]
          ["a.txt", "ghost.txt", "b.txt"])).2.2 "a.txt" = some [1] :=
  ⟨by decide, by decide,
   (c8_multi_missing [("a.txt", [1]), ("b.txt", [2])]
     ["a.txt", "ghost.txt", "b.txt"] []).1,
   (c8_multi_missing [("a.txt", [1]), ("b.txt", [2])]
     ["a.txt", "ghost.txt", "b.txt"] []).2.2.2 "a.txt" [1] (by decide) (by decide)⟩

/-- Counterexample for C9: a multi-file session whose final
`multiple_transfer_complete` frame carries a wrong `total_files` count (7,
where the session announced and transferred 0 files) is still accepted as a
success by the client, so no count verification takes place. -/
theorem c9_counterexample :
    download_multiple_files [] [Msg.multiStart 0 [], Msg.multiComplete 7]
      = (true, 0, [])
    ∧ (7 : Nat) ≠ 0 :=
  ⟨rfl, by decide⟩

/-- Claim C9 as amended: at the end of a multi-file download the client
checks only the type tag of the completion frame; a well-formed session is
reported successful whatever `total_files` value the completion frame
carries. -/
theorem c9_amended (dir : FS) (fns : List String) (fs : FS) (c : Nat) :
    (download_multiple_files fs
      (Msg.multiStart fns.length fns
        :: (fns.flatMap (send_file dir) ++ [Msg.multiComplete c]))).1 = true := by
  have hload := downloadLoopM_sent dir fns fs [Msg.multiComplete c]
  rw [download_multiple_multiStart, hload]
  rfl

/-- Counterexample for C5: the length prefix is read with a single `recv(4)`
call, not a loop.  On a schedule that delivers the 4 prefix bytes
`[0, 0, 0, 1]` in two pieces (first one byte, then three), the
implementation decodes the one-byte short read `[0]` as length 0 and returns
an empty message, while the prefix-looping receive the claim describes
returns the one-byte payload `[65]`. -/
theorem c5_counterexample :
    receive_message [[0], [0, 0, 1], [65]] = (some [], [[0, 0, 1], [65]])
    ∧ receive_message_spec [[0], [0, 0, 1], [65]] = (some [65], [])
    ∧ receive_message [[0], [0, 0, 1], [65]]
        ≠ receive_message_spec [[0], [0, 0, 1], [65]] := by
  refine ⟨rfl, rfl, ?_⟩
  decide

/-- Claim C5 as amended: the receive operation issues a single `recv` of at
most 4 bytes for the length prefix; whenever that first read delivers all 4
bytes at once (the first pending segment holds at least 4 bytes), the
behaviour coincides with the prefix-looping receive, and end-of-stream
(`None`) is signalled when the peer closed before any byte arrives.  (A short
first read is instead decoded as the whole prefix — see the
counterexample.) -/
theorem c5_amended :
    (∀ (s : List Nat) (segs : Segs), 4 ≤ s.length →
      receive_message (s :: segs) = receive_message_spec (s :: segs))
    ∧ (receive_message []).1 = none := by
  constructor
  · intro s segs h4
    have hpre : recvLoopF 4 4 (s :: segs)
        = (s.take 4, true, if s.length ≤ 4 then segs else s.drop 4 :: segs) :=
      recvLoopF_head_long 3 4 s segs (by decide) h4 (by decide)
    have hsock : sockRecv 4 (s :: segs)
        = (s.take 4, if s.length ≤ 4 then segs else s.drop 4 :: segs) := by
      by_cases hsl : s.length ≤ 4
      · simp [sockRecv, hsl, List.take_of_length_le hsl]
      · simp [sockRecv, hsl]
    rcases s with _ | ⟨a, s2⟩
    · simp at h4
    · have htake : (a :: s2).take 4 = a :: s2.take 3 := rfl
      rw [receive_message, receive_message_spec, recvLoop, hsock, hpre, htake]
  · rfl

/-- Witness for the amended C5: a schedule whose first segment carries the
whole 4-byte prefix. -/
theorem c5_amended_witness :
    4 ≤ ([0, 0, 0, 1] : List Nat).length
    ∧ receive_message [[0, 0, 0, 1], [65]] = receive_message_spec [[0, 0, 0, 1], [65]] :=
  ⟨by decide, c5_amended.1 [0, 0, 0, 1] [[65]] (by decide)⟩

/-- Counterexample for C6: a peer close after the length prefix but before
the declared payload (prefix declares 2 bytes, only 1 arrives before the
close) produces exactly the same result as a clean end-of-stream at a frame
boundary — both return `None` with an exhausted schedule — so the caller
cannot distinguish the two. -/
theorem c6_counterexample :
    receive_message [[0, 0, 0, 2], [65]] = (none, [])
    ∧ receive_message [] = (none, [])
    ∧ receive_message [[0, 0, 0, 2], [65]] = receive_message [] :=
  ⟨rfl, rfl, rfl⟩

/-- Claim C6 as amended: a peer close after the length prefix but before the
declared number of payload bytes makes `receive_message` return `None` — the
same signal a clean end-of-stream at a frame boundary produces — so
truncation is not distinguishable by the caller. -/
theorem c6_amended :
    (∀ (n : Nat) (payload : Segs), n < 4294967296 → totalBytes payload < n →
      (receive_message (toBytesBE4 n :: payload)).1 = none)
    ∧ (receive_message []).1 = none := by
  constructor
  · intro n payload hlt hshort
    have hdec := fromBytesBE_toBytesBE4 n hlt
    have hfail := recvLoopF_short n n payload hshort
    rw [receive_message]
    have hsock : sockRecv 4 (toBytesBE4 n :: payload) = (toBytesBE4 n, payload) := by
      simp [sockRecv, toBytesBE4]
    rw [hsock]
    rw [toBytesBE4]
    simp only []
    rw [toBytesBE4] at hdec
    rw [recvLoop, hdec, hfail]
    rfl
  · rfl

/-- Witness for the amended C6: declared length 2, one payload byte pending
before the close. -/
theorem c6_amended_witness :
    (2 : Nat) < 4294967296 ∧ totalBytes [[65]] < 2
    ∧ (receive_message (toBytesBE4 2 :: [[65]])).1 = none :=
  ⟨by decide, by decide, c6_amended.1 2 [[65]] (by decide) (by decide)⟩

/-- Claim C10: whenever `download_file` has received a valid FileInfo, the
destination file is created (overwriting any prior file of that name) and the
bytes of every fully received chunk are written to it before the FileComplete
check; whatever happens afterwards (missing, truncated or wrong-typed
completion), the destination file exists and holds exactly the bytes the
chunk loop received — failure performs no deletion or truncation. -/
theorem c10_persistence (fs : FS) (fn : String) (fsz n cs : Nat) (rest : List Msg) :
    lookupFile (download_file fs (Msg.fileInfo fn fsz n cs :: rest)).2.1 fn
      = some (recvChunksS n fsz rest []).1 := by
  rw [download_file_fileInfo]
  rcases hr : recvChunksS n fsz rest [] with ⟨written, ok, rest2⟩
  cases ok
  · simp [insertFile_insertFile, lookupFile_insertFile_self]
  · cases rest2 with
    | nil => simp [insertFile_insertFile, lookupFile_insertFile_self]
    | cons m rest3 =>
        cases m <;> simp [insertFile_insertFile, lookupFile_insertFile_self]

end FileTransfer
